import Mathlib

/-!
Verification development for the multicall aggregation library
(`src/aggregate.js`).  The JavaScript source is shallowly embedded:

* JS runtime values flowing through the decoder are modelled by `JSVal`
  (with `jsToString` standing for JS `toString()`).
* JS objects used as string-keyed dictionaries are modelled by
  association lists with in-place overwrite (`upsert`) and first-match
  lookup (`lookupA`), mirroring property assignment and access.
* The regexes `INSIDE_EVERY_PARENTHESES = /\(.*?\)/g` and
  `FIRST_CLOSING_PARENTHESES = /^[^)]*\)/` are modelled by character
  scanners (`parenGroups`, `firstClosingParen`) with the same
  leftmost-shortest-match semantics on newline-free signature strings.
* External collaborators (the ABI codec `encodeParameters` /
  `decodeParameters`, `keccak256`, `strip0x`, `ethCall`) are out of
  scope per the specification and are supplied as fields of an
  environment record `Env`.
* Thrown JS exceptions are modelled by `Except JsError`; `invariant`
  failures and raw runtime `TypeError`s are distinguished constructors.
-/

/-- JS runtime values as they appear in the decode pipeline. -/
inductive JSVal where
  | bool (b : Bool)
  | num (n : Int)
  | str (s : String)
  | arr (vs : List JSVal)
deriving Repr

mutual
/-- JS `toString()` on the values of `JSVal` (arrays join their
elements' string forms with commas). -/
def jsToString : JSVal → String
  | .bool true => "true"
  | .bool false => "false"
  | .num n => toString n
  | .str s => s
  | .arr vs => ",".intercalate (jsToStringList vs)

/-- `jsToString` mapped over a list of values. -/
def jsToStringList : List JSVal → List String
  | [] => []
  | v :: vs => jsToString v :: jsToStringList vs
end

/-! ## JS string-keyed objects as association lists -/

/-- JS property assignment `obj[k] = v`: overwrite the existing binding
in place if present, otherwise append a fresh binding at the end
(insertion order is preserved as in JS objects). -/
def upsert {β : Type} : List (String × β) → String → β → List (String × β)
  | [], k, v => [(k, v)]
  | (k', v') :: rest, k, v =>
      if k' = k then (k, v) :: rest else (k', v') :: upsert rest k v

/-- JS property access `obj[k]`: the (unique) binding for `k`, if any. -/
def lookupA {β : Type} : List (String × β) → String → Option β
  | [], _ => none
  | (k', v) :: rest, k => if k' = k then some v else lookupA rest k

theorem lookupA_upsert {β : Type} (m : List (String × β)) (k k' : String) (v : β) :
    lookupA (upsert m k v) k' = if k = k' then some v else lookupA m k' := by
  induction m with
  | nil => by_cases h : k = k' <;> simp [upsert, lookupA, h]
  | cons p rest ih =>
      obtain ⟨pk, pv⟩ := p
      simp only [upsert]
      by_cases hpk : pk = k
      · subst hpk
        simp only [if_pos rfl, lookupA]
        by_cases h : pk = k' <;> simp [h]
      · simp only [if_neg hpk, lookupA, ih]
        by_cases h1 : pk = k' <;> by_cases h2 : k = k' <;>
          simp [h1, h2]
        exact absurd (h1.trans h2.symm) hpk

theorem lookupA_upsert_self {β : Type} (m : List (String × β)) (k : String) (v : β) :
    lookupA (upsert m k v) k = some v := by
  simp [lookupA_upsert]

/-- `lookupA` after a fold of upserts is the last matching write, if any. -/
theorem lookupA_foldl_upsert {α β : Type} (f : α → String) (g : α → β)
    (l : List α) (init : List (String × β)) (k : String) :
    lookupA (l.foldl (fun acc x => upsert acc (f x) (g x)) init) k
      = l.foldl (fun r x => if f x = k then some (g x) else r) (lookupA init k) := by
  induction l generalizing init with
  | nil => simp
  | cons x xs ih =>
      simp only [List.foldl_cons]
      rw [ih, lookupA_upsert]

/-! ## Modelling the two signature regexes -/

/-- Split a character list at its first `')'`: the characters strictly
before it and the characters strictly after it.  `none` when no `')'`
occurs.  This is the engine step shared by both regexes. -/
def splitAtClose : List Char → Option (List Char × List Char)
  | [] => none
  | c :: rest =>
      if c = ')' then some ([], rest)
      else (splitAtClose rest).map (fun p => (c :: p.1, p.2))

theorem splitAtClose_append_no_close (xs ys : List Char)
    (h : ∀ c ∈ xs, c ≠ ')') :
    splitAtClose (xs ++ ')' :: ys) = some (xs, ys) := by
  induction xs with
  | nil => simp [splitAtClose]
  | cons c rest ih =>
      have hc : c ≠ ')' := h c (by simp)
      have ih' := ih (fun d hd => h d (by simp [hd]))
      simp [splitAtClose, hc, ih']

theorem splitAtClose_none (l : List Char) (h : ∀ c ∈ l, c ≠ ')') :
    splitAtClose l = none := by
  induction l with
  | nil => simp [splitAtClose]
  | cons c rest ih =>
      have hc : c ≠ ')' := h c (by simp)
      simp [splitAtClose, hc, ih (fun d hd => h d (by simp [hd]))]

/-- One left-to-right pass of the global regex engine for
`INSIDE_EVERY_PARENTHESES = /\(.*?\)/g` on a newline-free string.
Outside a match attempt (`acc = none`) only a `'('` can start a match;
inside one (`acc = some buffered`) the first `')'` ends the match (lazy
`.*?` takes the nearest closing parenthesis) and scanning resumes right
after it.  A trailing unclosed `'('` produces no match. -/
def parenScan : List Char → Option (List Char) → List (List Char)
  | [], _ => []
  | c :: rest, none =>
      if c = '(' then parenScan rest (some ['('])
      else parenScan rest none
  | c :: rest, some acc =>
      if c = ')' then (acc ++ [')']) :: parenScan rest none
      else parenScan rest (some (acc ++ [c]))

/-- All matches of `INSIDE_EVERY_PARENTHESES` on a string's characters. -/
def parenGroups (l : List Char) : List (List Char) :=
  parenScan l none

theorem parenScan_inside_no_close (xs ys : List Char) (acc : List Char)
    (h : ∀ c ∈ xs, c ≠ ')') :
    parenScan (xs ++ ')' :: ys) (some acc)
      = (acc ++ xs ++ [')']) :: parenScan ys none := by
  induction xs generalizing acc with
  | nil => simp [parenScan]
  | cons c rest ih =>
      have hc : c ≠ ')' := h c (by simp)
      rw [List.cons_append]
      show parenScan (c :: (rest ++ ')' :: ys)) (some acc) = _
      rw [parenScan]
      simp only [hc, if_false]
      rw [ih _ (fun d hd => h d (by simp [hd]))]
      simp

theorem parenScan_inside_all_open (xs : List Char) (acc : List Char)
    (h : ∀ c ∈ xs, c ≠ ')') :
    parenScan xs (some acc) = [] := by
  induction xs generalizing acc with
  | nil => simp [parenScan]
  | cons c rest ih =>
      have hc : c ≠ ')' := h c (by simp)
      rw [parenScan]
      simp only [hc, if_false]
      exact ih _ (fun d hd => h d (by simp [hd]))

theorem parenScan_skip (xs ys : List Char) (h : ∀ c ∈ xs, c ≠ '(') :
    parenScan (xs ++ ys) none = parenScan ys none := by
  induction xs with
  | nil => simp
  | cons c rest ih =>
      have hc : c ≠ '(' := h c (by simp)
      rw [List.cons_append, parenScan]
      simp only [hc, if_false]
      exact ih (fun d hd => h d (by simp [hd]))

theorem parenGroups_no_open (xs : List Char) (h : ∀ c ∈ xs, c ≠ '(') :
    parenGroups xs = [] := by
  have := parenScan_skip xs [] h
  simpa [parenGroups, parenScan] using this

/-- `method.match(INSIDE_EVERY_PARENTHESES)`: JS returns `null` when
there is no match at all, else the non-empty array of matches. -/
def matchAllParens (s : String) : Option (List String) :=
  let gs := (parenGroups s.data).map (fun l => String.mk l)
  if gs.isEmpty then none else some gs

/-- The match of `FIRST_CLOSING_PARENTHESES = /^[^)]*\)/`: the prefix of
the string up to and including its first `')'`; JS returns `null` when
the string has no `')'`. -/
def firstClosingParen (s : String) : Option String :=
  (splitAtClose s.data).map (fun p => String.mk (p.1 ++ [')']))

/-- JS `m.slice(1, -1)`: drop the first and last character. -/
def strip1 (s : String) : String :=
  String.mk ((s.data.drop 1).dropLast)

/-- JS `s.split(',')` on the character list: split at every comma. -/
def splitComma : List Char → List (List Char)
  | [] => [[]]
  | c :: rest =>
      if c = ',' then [] :: splitComma rest
      else
        match splitComma rest with
        | g :: gs => (c :: g) :: gs
        | [] => [[c]]

/-- JS `s.split(',')` as strings. -/
def splitCommaStr (s : String) : List String :=
  (splitComma s.data).map (fun l => String.mk l)

/-! ## Data model -/

/-- One `[key, transform?]` return-field entry of a call's `returns`
array.  `transform = none` models a one-element array `[key]`;
`transform = some f` models `[key, f]`. -/
structure ReturnMeta where
  key : String
  transform : Option (JSVal → JSVal)

/-- A caller-supplied signature-mode call:
`{ call: [signature, ...argValues], target?, returns }`.  Argument
values are modelled by their string form. -/
structure RawCall where
  call : List String
  target : Option String
  returns : List ReturnMeta

/-- The canonical descriptor produced by normalization (the object
built at lines 69–75 of `aggregate.js`). -/
structure Descriptor where
  method : String
  args : List (String × String)
  returnTypes : List String
  target : String
  returns : List ReturnMeta

/-- Network configuration; only `multicallAddress` is consulted by the
embedded code. -/
structure Config where
  multicallAddress : String

/-- Type descriptions passed to the external `encodeParameters`: either
a plain Solidity type tag string or the one `tuple[]` descriptor object
used for the outer envelope. -/
inductive AbiType where
  | named (tag : String)
  | tupleArr (components : List String) (tupleName : String)

/-- Thrown JS exceptions: raw runtime `TypeError`s versus failures of
the `invariant(cond, msg)` helper. -/
inductive JsError where
  | typeError (msg : String)
  | invariantViolation (msg : String)

/-- External collaborators (black boxes per the specification §1/§6):
the ABI codec, keccak-256 as a `0x`-prefixed hex string of the hash of
the UTF-8 bytes of its input, `strip0x`, and the network call. -/
structure Env where
  keccak256 : String → String
  encodeParameters : List AbiType → List JSVal → String
  decodeParameters : List String → JSVal → List JSVal
  strip0x : String → String
  ethCall : String → Config → String

/-! ## JSON serialization (the memoization key `JSON.stringify(args)`) -/

/-- JSON string escaping for the characters JSON.stringify always
escapes in our value domain. -/
def jsEscape (s : String) : String :=
  String.join (s.data.map (fun c =>
    if c = '"' then "\\\"" else if c = '\\' then "\\\\" else String.mk [c]))

def jsonStr (s : String) : String :=
  "\"" ++ jsEscape s ++ "\""

def jsonArr (xs : List String) : String :=
  "[" ++ ",".intercalate xs ++ "]"

/-- `JSON.stringify` of a `[key, transform?]` array: functions in array
position stringify to `null`. -/
def jsonOfReturnMeta (m : ReturnMeta) : String :=
  match m.transform with
  | some _ => jsonArr [jsonStr m.key, "null"]
  | none => jsonArr [jsonStr m.key]

/-- `JSON.stringify` of a normalized call object, with the property
insertion order of the object literal in `aggregate.js`. -/
def jsonOfDescriptor (d : Descriptor) : String :=
  "\x7b\"method\":" ++ jsonStr d.method ++
    ",\"args\":" ++ jsonArr (d.args.map (fun a => jsonArr [jsonStr a.1, jsonStr a.2])) ++
    ",\"returnTypes\":" ++ jsonArr (d.returnTypes.map jsonStr) ++
    ",\"target\":" ++ jsonStr d.target ++
    ",\"returns\":" ++ jsonArr (d.returns.map jsonOfReturnMeta) ++ "\x7d"

/-- The lodash-memoize resolver `(...args) => JSON.stringify(args)` for
the invocation `makeMulticallData(calls, false)`. -/
def serializeKey (calls : List Descriptor) : String :=
  jsonArr [jsonArr (calls.map jsonOfDescriptor), "false"]

/-! ## Envelope Builder (`_makeMulticallData`, memoized) -/

/-- The per-call `callData` hex string built at lines 13–21:
`keccak256(toUtf8Bytes(method)).substr(0, 10)` (the `0x`-prefixed
4-byte selector) concatenated with the `0x`-stripped ABI encoding of
the argument (types, values) when at least one argument exists. -/
def callDataFor (env : Env) (d : Descriptor) : String :=
  (env.keccak256 d.method).take 10 ++
    (if d.args.length > 0 then
      env.strip0x (env.encodeParameters
        (d.args.map (fun a => AbiType.named a.2))
        (d.args.map (fun a => JSVal.str a.1)))
    else "")

/-- `_makeMulticallData`: the outer ABI encoding of the array of
`(target, callData)` tuples. -/
def _makeMulticallData (env : Env) (calls : List Descriptor) : String :=
  let values := [JSVal.arr (calls.map (fun c =>
    JSVal.arr [JSVal.str c.target, JSVal.str (callDataFor env c)]))]
  env.encodeParameters [AbiType.tupleArr ["address", "bytes"] "data"] values

/-- The lodash `memoize` combinator: look the key up in the cache; on a
hit return the cached value without calling `f`, on a miss call `f` and
store the result.  The boolean records whether `f` was invoked. -/
def memoApply {α β : Type} (f : α → β) (keyFn : α → String)
    (cache : List (String × β)) (x : α) : β × List (String × β) × Bool :=
  match lookupA cache (keyFn x) with
  | some b => (b, cache, false)
  | none =>
      let b := f x
      (b, upsert cache (keyFn x) b, true)

/-- `makeMulticallData = memoize(_makeMulticallData, (...args) =>
JSON.stringify(args))`, with the cache state threaded explicitly. -/
def makeMulticallData (env : Env) (cache : List (String × String))
    (calls : List Descriptor) : String × List (String × String) × Bool :=
  memoApply (_makeMulticallData env) serializeKey cache calls

/-! ## Call Normalizer (lines 53–76) -/

/-- The argument-type list resolved from a signature's first
parenthesized group: comma-split with empty entries dropped. -/
def argTypesOf (argTypesString : String) : List String :=
  (splitCommaStr argTypesString).filter (fun e => e ≠ "")

/-- The message of the `invariant` failure at lines 60–66 (both lists
are embedded via `JSON.stringify`). -/
def malformedMsg (argTypes argValues : List String) : String :=
  "Every method argument must have exactly one type.\n          Comparing argument types " ++
    jsonArr (argTypes.map jsonStr) ++
    "\n          to argument values " ++ jsonArr (argValues.map jsonStr) ++
    ".\n        "

def nullMatchMsg : String :=
  "Cannot read properties of null (reading 'map')"

def nullFirstMatchMsg : String :=
  "Cannot read properties of null (reading '0')"

def undefinedMethodMsg : String :=
  "Cannot read properties of undefined (reading 'match')"

/-- Normalization of one call (the body of the `calls.map` at lines
53–76), returning the descriptor or the exception thrown. -/
def normalizeCall (cfg : Config) (c : RawCall) : Except JsError Descriptor :=
  let target := match c.target with
    | none => cfg.multicallAddress
    | some t => if t = "" then cfg.multicallAddress else t
  match c.call with
  | [] => .error (.typeError undefinedMethodMsg)
  | method :: argValues =>
      match matchAllParens method with
      | none => .error (.typeError nullMatchMsg)
      | some groups =>
          let stripped := groups.map strip1
          let argTypesString := (stripped.get? 0).getD ""
          let returnTypesString : Option String := stripped.get? 1
          let argTypes := argTypesOf argTypesString
          if argTypes.length = argValues.length then
            let args := argValues.zip argTypes
            let returnTypes := match returnTypesString with
              | some s => if s ≠ "" then splitCommaStr s else []
              | none => []
            match firstClosingParen method with
            | some m =>
                .ok { method := m, args := args, returnTypes := returnTypes,
                      target := target, returns := c.returns }
            | none => .error (.typeError nullFirstMatchMsg)
          else .error (.invariantViolation (malformedMsg argTypes argValues))

/-- The `calls.map(...)` at line 53 with JS exception semantics: calls
are normalized left to right and the first thrown exception aborts the
whole map. -/
def mapNormalize (cfg : Config) : List RawCall → Except JsError (List Descriptor)
  | [] => .ok []
  | c :: rest =>
      match normalizeCall cfg c with
      | .error e => .error e
      | .ok d =>
          match mapNormalize cfg rest with
          | .ok ds => .ok (d :: ds)
          | .error e => .error e

/-- The `keyToArgMap` reduce at lines 42–51: for every call whose
destructured argument list is non-empty, write its argument list under
each of its return keys. -/
def buildKeyToArgMap (calls : List RawCall) : List (String × List String) :=
  calls.foldl (fun acc c =>
    let args := c.call.tail
    if args.length > 0 then
      c.returns.foldl (fun acc2 rm => upsert acc2 rm.key args) acc
    else acc) []

/-! ## Result Decoder & Mapper (lines 80–116) -/

def missingDataMsg : String := "Missing data needed to parse results"

def notIterableMsg : String := "r.forEach is not a function"

def undefinedReturnTypesMsg : String :=
  "Cannot read properties of undefined (reading 'returnTypes')"

def undefinedDestructureMsg : String :=
  "Cannot destructure property because it is undefined"

/-- The boolean coercion of one call's decoded values
(`resultsDecoded.map((r, idx) => types[idx] === 'bool' ? r.toString()
=== 'true' : r)`), with the JS index threaded explicitly. -/
def coerceVals (types : List String) : List JSVal → Nat → List JSVal
  | [], _ => []
  | r :: rs, i =>
      (if types.get? i = some "bool" then JSVal.bool (jsToString r == "true") else r)
        :: coerceVals types rs (i + 1)

/-- The inner `forEach` of the `parsedVals` reduce (lines 94–106):
for each per-call result blob, decode it with `calls[idx].returnTypes`
(a `TypeError` when `idx` exceeds the call list), coerce booleans, and
concatenate in call order. -/
def parseVals (env : Env) (calls : List Descriptor) :
    List JSVal → Nat → Except JsError (List JSVal)
  | [], _ => .ok []
  | blob :: rest, idx =>
      match calls.get? idx with
      | none => .error (.typeError undefinedReturnTypesMsg)
      | some c =>
          let resultsDecoded := env.decodeParameters c.returnTypes blob
          match parseVals env calls rest (idx + 1) with
          | .ok tailVals => .ok (coerceVals c.returnTypes resultsDecoded 0 ++ tailVals)
          | .error e => .error e

/-- `transform !== undefined ? transform(v) : v`. -/
def applyTransform (m : ReturnMeta) (v : JSVal) : JSVal :=
  match m.transform with
  | some f => f v
  | none => v

/-- The mapping loop at lines 110–114: walk `parsedVals` by index,
destructure `returnDataMeta[i]` (a `TypeError` when it is `undefined`),
and write into `original` and `transformed`. -/
def mapLoop : List JSVal → List ReturnMeta →
    List (String × JSVal) → List (String × JSVal) →
    Except JsError (List (String × JSVal) × List (String × JSVal))
  | [], _, orig, transf => .ok (orig, transf)
  | _ :: _, [], _, _ => .error (.typeError undefinedDestructureMsg)
  | v :: vs, m :: ms, orig, transf =>
      mapLoop vs ms (upsert orig m.key v) (upsert transf m.key (applyTransform m v))

/-- The `{ blockNumber, original, transformed }` result object. -/
structure RetObj where
  blockNumber : Option JSVal
  original : List (String × JSVal)
  transformed : List (String × JSVal)

/-- The post-network phase of `aggregate` (lines 80–116): flatten the
return types and return metadata, check the arity invariant, decode the
outer `(uint256, bytes[])` envelope, decode and coerce every per-call
result, and run the mapping loop. -/
def aggregatePost (env : Env) (calls : List Descriptor) (outerResults : String) :
    Except JsError RetObj :=
  let returnTypeArray := (calls.map (fun c => c.returnTypes)).flatten
  let returnDataMeta := (calls.map (fun c => c.returns)).flatten
  if returnTypeArray.length = returnDataMeta.length then
    let outerResultsDecoded :=
      env.decodeParameters ["uint256", "bytes[]"] (JSVal.str outerResults)
    let blockNumber := outerResultsDecoded.head?
    let rest := outerResultsDecoded.tail
    match rest.foldl
        (fun (acc : Except JsError (List JSVal)) (r : JSVal) =>
          match acc with
          | .error e => .error e
          | .ok sofar =>
              match r with
              | .arr items =>
                  match parseVals env calls items 0 with
                  | .ok vals => .ok (sofar ++ vals)
                  | .error e => .error e
              | _ => .error (.typeError notIterableMsg))
        (.ok []) with
    | .error e => .error e
    | .ok parsedVals =>
        match mapLoop parsedVals returnDataMeta [] [] with
        | .ok (orig, transf) =>
            .ok { blockNumber := blockNumber, original := orig, transformed := transf }
        | .error e => .error e
  else .error (.invariantViolation missingDataMsg)

/-- The value returned by a successful `aggregate` call. -/
structure AggregateOutput where
  results : RetObj
  keyToArgMap : List (String × List String)

/-- The full signature-mode `aggregate` pipeline: build `keyToArgMap`,
normalize every call (the first thrown exception aborts), build the
(memoized) envelope, perform the network call, and run the decode
phase.  Returns the result (or the exception), the updated
envelope-blob cache, and whether `ethCall` was invoked. -/
def aggregate (env : Env) (cfg : Config) (calls : List RawCall)
    (cache : List (String × String)) :
    Except JsError AggregateOutput × List (String × String) × Bool :=
  let keyToArgMap := buildKeyToArgMap calls
  match mapNormalize cfg calls with
  | .error e => (.error e, cache, false)
  | .ok descs =>
      let mk := makeMulticallData env cache descs
      let callDataBytes := mk.1
      let cache' := mk.2.1
      let outerResults := env.ethCall callDataBytes cfg
      match aggregatePost env descs outerResults with
      | .ok retObj =>
          (.ok { results := retObj, keyToArgMap := keyToArgMap }, cache', true)
      | .error e => (.error e, cache', true)

/-! ## ABI mode (`aggregateDecodedFromABI`, lines 119–156) -/

/-- An ABI-mode call `{ abi, call: [methodName, ...argValues], target }`.
The `ethers` `Interface` built from an ABI is modelled by the opaque
ABI blob itself (a string), interrogated through `AbiEnv`. -/
structure AbiCall where
  abi : String
  call : List String
  target : Option String

/-- The object key produced by the *pre-default* `target` at line 123:
a JS object key is a string, so an absent (`undefined`) target is
stored under the literal key `"undefined"`. -/
def targetKey : Option String → String
  | some t => t
  | none => "undefined"

/-- `Object.fromEntries(calls.map(({abi, target}) => [target,
new Interface(abi)]))`: later entries overwrite earlier ones. -/
def interfacesByContractAddress (calls : List AbiCall) : List (String × String) :=
  calls.foldl (fun acc c => upsert acc (targetKey c.target) c.abi) []

/-- The normalized ABI-mode call object (lines 141–145). -/
structure AbiDescriptor where
  method : String
  args : List (String × String)
  target : String

/-- External collaborators for ABI mode: interface interrogation
(`getFunction(...).inputs`, `decodeFunctionResult`), the codec pieces
for the envelope, the network call, and the fixed multicall interface's
`aggregate` result decode (`MULTICALL_ABI.decodeFunctionResult(
'aggregate', outer)[1]`). -/
structure AbiEnv where
  getFunctionInputs : String → String → Option (List String)
  decodeFunctionResult : String → String → JSVal → List JSVal
  keccak256 : String → String
  encodeParameters : List AbiType → List JSVal → String
  strip0x : String → String
  ethCall : String → Config → String
  decodeAggregateReturnData : String → List JSVal

def undefinedGetFunctionMsg : String :=
  "Cannot read properties of undefined (reading 'getFunction')"

def noMatchingFunctionMsg : String := "no matching function"

def undefinedDecodeFnResultMsg : String :=
  "Cannot read properties of undefined (reading 'decodeFunctionResult')"

/-- Normalization of one ABI-mode call (lines 126–146).  The interface
is looked up under the *pre-default* target (line 127 precedes the
defaulting at line 128). -/
def abiNormalizeCall (env : AbiEnv) (cfg : Config)
    (interfaces : List (String × String)) (c : AbiCall) :
    Except JsError AbiDescriptor :=
  let contractInterface := lookupA interfaces (targetKey c.target)
  let target := match c.target with
    | none => cfg.multicallAddress
    | some t => if t = "" then cfg.multicallAddress else t
  match c.call with
  | [] => .error (.typeError undefinedMethodMsg)
  | method :: argValues =>
      match contractInterface with
      | none => .error (.typeError undefinedGetFunctionMsg)
      | some abi =>
          match env.getFunctionInputs abi method with
          | none => .error (.typeError noMatchingFunctionMsg)
          | some argTypes =>
              if argTypes.length = argValues.length then
                .ok { method := method ++ "(" ++ ",".intercalate argTypes ++ ")",
                      args := argValues.zip argTypes,
                      target := target }
              else .error (.invariantViolation (malformedMsg argTypes argValues))

/-- Per-call `callData` for ABI mode (same formula as `callDataFor`;
the JS shares `_makeMulticallData` across both call shapes). -/
def callDataForAbi (env : AbiEnv) (d : AbiDescriptor) : String :=
  (env.keccak256 d.method).take 10 ++
    (if d.args.length > 0 then
      env.strip0x (env.encodeParameters
        (d.args.map (fun a => AbiType.named a.2))
        (d.args.map (fun a => JSVal.str a.1)))
    else "")

/-- `_makeMulticallData` applied to ABI-mode descriptors. -/
def _makeMulticallDataAbi (env : AbiEnv) (calls : List AbiDescriptor) : String :=
  let values := [JSVal.arr (calls.map (fun c =>
    JSVal.arr [JSVal.str c.target, JSVal.str (callDataForAbi env c)]))]
  env.encodeParameters [AbiType.tupleArr ["address", "bytes"] "data"] values

/-- One step of the final decode map (lines 153–155):
`interfacesByContractAddress[calls[i].target].decodeFunctionResult(
calls[i].method, result)` — note the lookup now uses the *post-default*
target stored in the normalized call. -/
def abiDecodeStep (env : AbiEnv) (interfaces : List (String × String))
    (descs : List AbiDescriptor) (result : JSVal) (i : Nat) :
    Except JsError (List JSVal) :=
  match descs.get? i with
  | none => .error (.typeError undefinedDecodeFnResultMsg)
  | some d =>
      match lookupA interfaces d.target with
      | none => .error (.typeError undefinedDecodeFnResultMsg)
      | some abi => .ok (env.decodeFunctionResult abi d.method result)

/-- `decoded.map((result, i) => ...)`: the first thrown exception
aborts the whole map. -/
def abiDecodeAll (env : AbiEnv) (interfaces : List (String × String))
    (descs : List AbiDescriptor) :
    List JSVal → Nat → Except JsError (List (List JSVal))
  | [], _ => .ok []
  | r :: rest, i =>
      match abiDecodeStep env interfaces descs r i with
      | .error e => .error e
      | .ok vals =>
          match abiDecodeAll env interfaces descs rest (i + 1) with
          | .ok tl => .ok (vals :: tl)
          | .error e => .error e

/-- The ABI-mode `calls.map(...)` at line 126 with JS exception
semantics. -/
def mapAbiNormalize (env : AbiEnv) (cfg : Config)
    (interfaces : List (String × String)) :
    List AbiCall → Except JsError (List AbiDescriptor)
  | [] => .ok []
  | c :: rest =>
      match abiNormalizeCall env cfg interfaces c with
      | .error e => .error e
      | .ok d =>
          match mapAbiNormalize env cfg interfaces rest with
          | .ok ds => .ok (d :: ds)
          | .error e => .error e

/-- The full `aggregateDecodedFromABI` pipeline. -/
def aggregateDecodedFromABI (env : AbiEnv) (cfg : Config) (calls : List AbiCall) :
    Except JsError (List (List JSVal)) :=
  let interfaces := interfacesByContractAddress calls
  match mapAbiNormalize env cfg interfaces calls with
  | .error e => .error e
  | .ok descs =>
      let callDataBytes := _makeMulticallDataAbi env descs
      let outerResults := env.ethCall callDataBytes cfg
      let decoded := env.decodeAggregateReturnData outerResults
      abiDecodeAll env interfaces descs decoded 0

/-! ## Specification-side definitions (for the refinement claims) -/

/-- Written from the spec's words (§4.2): for each descriptor,
`selector = first 4 bytes of keccak256(canonical method string)` (ten
hex characters including the `0x` prefix), `encodedArgs =
ABI-encode(argTypes, argValues)` when arguments exist else empty,
`callData = selector ++ encodedArgs`; the blob is the outer ABI
encoding of the array of `(target, callData)` tuples. -/
def envelopeBlobSpec (env : Env) (calls : List Descriptor) : String :=
  env.encodeParameters [AbiType.tupleArr ["address", "bytes"] "data"]
    [JSVal.arr (calls.map (fun d =>
      JSVal.arr [JSVal.str d.target, JSVal.str (
        (env.keccak256 d.method).take 10 ++
          (if d.args ≠ [] then
            env.strip0x (env.encodeParameters
              (d.args.map (fun a => AbiType.named a.2))
              (d.args.map (fun a => JSVal.str a.1)))
          else ""))]))]

/-- Written from the spec's words: the argument list of the last call
in list order that has at least one argument and a return field keyed
`k`, if any. -/
def specKeyToArg (calls : List RawCall) (k : String) : Option (List String) :=
  calls.foldl (fun r c =>
    if c.call.tail.length > 0 ∧ c.returns.any (fun rm => rm.key = k) then
      some c.call.tail
    else r) none

/-- Written from the spec's words: the decoded value at the last
position, in call-order-then-field-order, whose key is `k`. -/
def specLastOriginal (meta : List ReturnMeta) (vals : List JSVal) (k : String) :
    Option JSVal :=
  (vals.zip meta).foldl (fun r p =>
    if p.2.key = k then some p.1 else r) none

/-- Written from the spec's words: the transformed value at the last
position whose key is `k`. -/
def specLastTransformed (meta : List ReturnMeta) (vals : List JSVal) (k : String) :
    Option JSVal :=
  (vals.zip meta).foldl (fun r p =>
    if p.2.key = k then some (applyTransform p.2 p.1) else r) none

/-- The ABI supplied with the last call whose (pre-default) target key
is `t`, if any. -/
def lastAbiFor (calls : List AbiCall) (t : String) : Option String :=
  calls.foldl (fun r c => if targetKey c.target = t then some c.abi else r) none

/-! ## Theorems for the claims -/

theorem callDataFor_eq (env : Env) (d : Descriptor) :
    callDataFor env d =
      (env.keccak256 d.method).take 10 ++
        (if d.args ≠ [] then
          env.strip0x (env.encodeParameters
            (d.args.map (fun a => AbiType.named a.2))
            (d.args.map (fun a => JSVal.str a.1)))
        else "") := by
  unfold callDataFor
  by_cases h : d.args = []
  · simp [h]
  · simp [h, List.length_pos.mpr h]

/-- C5: for every list of canonical call descriptors, the envelope
builder produces, for each descriptor, `callData` equal to the 4-byte
selector of the keccak-256 hash of the canonical method string (ten hex
characters including the `0x` prefix) concatenated with the ABI
encoding of `(argTypes, argValues)` when at least one argument exists
and with nothing otherwise, and the envelope blob is the outer ABI
encoding of the array of `(target, callData)` tuples. -/
theorem aggregate_envelope_matches_spec (env : Env) (calls : List Descriptor) :
    _makeMulticallData env calls = envelopeBlobSpec env calls := by
  simp only [_makeMulticallData, envelopeBlobSpec, callDataFor_eq]

theorem coerceVals_getElem? (types : List String) (rs : List JSVal) (n i : Nat) :
    (coerceVals types rs n)[i]?
      = (rs[i]?).map (fun r =>
          if types[n + i]? = some "bool" then JSVal.bool (jsToString r == "true")
          else r) := by
  induction rs generalizing n i with
  | nil => simp [coerceVals]
  | cons r rest ih =>
      cases i with
      | zero => simp [coerceVals]
      | succ j =>
          have := ih (n + 1) j
          simp only [coerceVals, List.getElem?_cons_succ, this]
          have harith : n + 1 + j = n + (j + 1) := by omega
          rw [harith]

/-- C3: a decoded return field whose declared type is `bool` is stored
as `true` iff the string form of the decoded value is exactly `"true"`;
any other decoded value (including a native boolean `false`) yields
`false`; a field of any other declared type is passed through
unchanged. -/
theorem bool_coercion_by_string_equality (types : List String) (rs : List JSVal)
    (i : Nat) (r : JSVal) (hr : rs[i]? = some r) :
    (types[i]? = some "bool" →
        ((coerceVals types rs 0)[i]? = some (JSVal.bool true) ↔ jsToString r = "true")
        ∧ (jsToString r ≠ "true" →
            (coerceVals types rs 0)[i]? = some (JSVal.bool false)))
    ∧ (∀ t, types[i]? = some t → t ≠ "bool" →
        (coerceVals types rs 0)[i]? = some r) := by
  have hc := coerceVals_getElem? types rs 0 i
  rw [hr] at hc
  simp only [Nat.zero_add, Option.map_some'] at hc
  constructor
  · intro hb
    rw [hb] at hc
    have hc' : (coerceVals types rs 0)[i]?
        = some (JSVal.bool (jsToString r == "true")) := by
      simpa using hc
    constructor
    · rw [hc']
      constructor
      · intro h
        exact eq_of_beq (JSVal.bool.inj (Option.some.inj h))
      · intro h
        simp [h]
    · intro h
      rw [hc']
      simp [h]
  · intro t ht hne
    rw [ht] at hc
    have hneq : ¬(some t = some "bool") := by
      simp [hne]
    rw [if_neg hneq] at hc
    exact hc

/-- Witness for C3 at a concrete input: a native boolean `false`
declared as `bool` is stored as `false` (its string form is not
`"true"`). -/
theorem bool_coercion_by_string_equality_witness :
    ([JSVal.bool false][0]? = some (JSVal.bool false))
    ∧ (coerceVals ["bool"] [JSVal.bool false] 0)[0]? = some (JSVal.bool false) := by
  constructor
  · rfl
  · have h := bool_coercion_by_string_equality ["bool"] [JSVal.bool false] 0
      (JSVal.bool false) rfl
    exact (h.1 rfl).2 (by decide)

/-- C6: two envelope-builder invocations whose normalized call lists
have equal JSON serializations return byte-identical blobs, and the
second one is a cache hit: it does not re-invoke `_makeMulticallData`
(the returned invocation flag is `false`) and leaves the cache
unchanged. -/
theorem makeMulticallData_memoized (env : Env) (cache : List (String × String))
    (l1 l2 : List Descriptor) (h : serializeKey l1 = serializeKey l2) :
    makeMulticallData env (makeMulticallData env cache l1).2.1 l2
      = ((makeMulticallData env cache l1).1,
         (makeMulticallData env cache l1).2.1, false) := by
  simp only [makeMulticallData, memoApply]
  rw [← h]
  cases hc : lookupA cache (serializeKey l1) with
  | some b => simp [hc]
  | none => simp [hc, lookupA_upsert_self]

/-- A concrete environment used by the witnesses (all collaborator
functions are total and computable). -/
def sampleEnv : Env :=
  { keccak256 := fun s => "0x" ++ s,
    encodeParameters := fun _ vs => "0xenc" ++ toString vs.length,
    decodeParameters := fun ts _ => ts.map (fun t =>
      if t = "bool" then JSVal.bool true else JSVal.num 5),
    strip0x := fun s => s.drop 2,
    ethCall := fun _ _ => "0xresponse" }

/-- Witness for C6 at a concrete input: submitting the (identically
serialized) empty descriptor list twice returns the first blob and does
not recompute. -/
theorem makeMulticallData_memoized_witness :
    serializeKey [] = serializeKey []
    ∧ makeMulticallData sampleEnv (makeMulticallData sampleEnv [] []).2.1 []
      = ((makeMulticallData sampleEnv [] []).1,
         (makeMulticallData sampleEnv [] []).2.1, false) :=
  ⟨rfl, makeMulticallData_memoized sampleEnv [] [] [] rfl⟩

/-! ### Last-match folds -/

theorem lastMatchF_id {α β : Type} (p : α → Prop) [DecidablePred p] (g : α → β)
    (l : List α) (x : Option β) (h : ∀ a ∈ l, ¬ p a) :
    l.foldl (fun r a => if p a then some (g a) else r) x = x := by
  induction l generalizing x with
  | nil => rfl
  | cons a l ih =>
      have ha : ¬ p a := h a (by simp)
      simp only [List.foldl_cons, if_neg ha]
      exact ih x (fun b hb => h b (by simp [hb]))

theorem lastMatchF_eq_none {α β : Type} (p : α → Prop) [DecidablePred p]
    (g : α → β) (l : List α) (x : Option β) :
    l.foldl (fun r a => if p a then some (g a) else r) x = none
      ↔ x = none ∧ ∀ a ∈ l, ¬ p a := by
  induction l generalizing x with
  | nil => simp
  | cons a l ih =>
      simp only [List.foldl_cons, ih]
      by_cases ha : p a
      · simp [ha]
      · simp only [if_neg ha]
        constructor
        · rintro ⟨hx, hall⟩
          exact ⟨hx, by
            intro b hb
            rcases List.mem_cons.mp hb with h1 | h2
            · subst h1; exact ha
            · exact hall b h2⟩
        · rintro ⟨hx, hall⟩
          exact ⟨hx, fun b hb => hall b (by simp [hb])⟩

theorem lastMatchF_append_last {α β : Type} (p : α → Prop) [DecidablePred p]
    (g : α → β) (l1 : List α) (c : α) (l2 : List α) (x : Option β)
    (hc : p c) (h2 : ∀ a ∈ l2, ¬ p a) :
    (l1 ++ c :: l2).foldl (fun r a => if p a then some (g a) else r) x
      = some (g c) := by
  rw [List.foldl_append, List.foldl_cons, if_pos hc]
  exact lastMatchF_id p g l2 _ h2

/-! ### C7: duplicate output keys overwrite silently, last write wins -/

theorem mapLoop_ok (vals : List JSVal) (meta : List ReturnMeta)
    (o t : List (String × JSVal)) (h : vals.length ≤ meta.length) :
    mapLoop vals meta o t
      = .ok ((vals.zip meta).foldl
          (fun acc p => (upsert acc.1 p.2.key p.1,
                         upsert acc.2 p.2.key (applyTransform p.2 p.1))) (o, t)) := by
  induction vals generalizing meta o t with
  | nil => simp [mapLoop]
  | cons v vs ih =>
      cases meta with
      | nil => simp at h
      | cons m ms =>
          simp only [List.length_cons, Nat.add_le_add_iff_right] at h
          simp only [mapLoop, List.zip_cons_cons, List.foldl_cons]
          exact ih ms _ _ h

theorem foldl_pair_split {α β γ : Type} (l : List α)
    (f : β → α → β) (g : γ → α → γ) (b : β) (c : γ) :
    l.foldl (fun p x => (f p.1 x, g p.2 x)) (b, c) = (l.foldl f b, l.foldl g c) := by
  induction l generalizing b c with
  | nil => rfl
  | cons a l ih => simp only [List.foldl_cons]; exact ih (f b a) (g c a)

/-- C7: when the flat value and return-field-spec sequences have equal
length, the mapping loop never raises an error on duplicate keys, and
the final `original[k]` (resp. `transformed[k]`) is the decoded (resp.
transformed) value of the last position in
call-order-then-field-order whose key is `k`. -/
theorem duplicate_keys_last_write_wins (meta : List ReturnMeta)
    (vals : List JSVal) (k : String) (h : vals.length = meta.length) :
    ∃ orig transf, mapLoop vals meta [] [] = .ok (orig, transf)
      ∧ lookupA orig k = specLastOriginal meta vals k
      ∧ lookupA transf k = specLastTransformed meta vals k := by
  rw [mapLoop_ok vals meta [] [] (le_of_eq h)]
  rw [foldl_pair_split (vals.zip meta)
    (fun b p => upsert b p.2.key p.1)
    (fun t p => upsert t p.2.key (applyTransform p.2 p.1)) [] []]
  refine ⟨_, _, rfl, ?_, ?_⟩
  · rw [lookupA_foldl_upsert (fun (p : JSVal × ReturnMeta) => p.2.key)
      (fun (p : JSVal × ReturnMeta) => p.1) (vals.zip meta) [] k]
    rfl
  · rw [lookupA_foldl_upsert (fun (p : JSVal × ReturnMeta) => p.2.key)
      (fun (p : JSVal × ReturnMeta) => applyTransform p.2 p.1) (vals.zip meta) [] k]
    rfl

/-- Witness for C7 at a concrete input: keys `"a"`, `"b"`, `"a"` with
values `1`, `2`, `3` — no error, and `original["a"]` is the value of
the *last* `"a"` position. -/
theorem duplicate_keys_last_write_wins_witness :
    ([JSVal.num 1, JSVal.num 2, JSVal.num 3].length
        = ([⟨"a", none⟩, ⟨"b", none⟩, ⟨"a", none⟩] : List ReturnMeta).length)
    ∧ (∃ orig transf,
        mapLoop [JSVal.num 1, JSVal.num 2, JSVal.num 3]
            [⟨"a", none⟩, ⟨"b", none⟩, ⟨"a", none⟩] [] [] = .ok (orig, transf)
          ∧ lookupA orig "a"
              = specLastOriginal [⟨"a", none⟩, ⟨"b", none⟩, ⟨"a", none⟩]
                  [JSVal.num 1, JSVal.num 2, JSVal.num 3] "a"
          ∧ lookupA transf "a"
              = specLastTransformed [⟨"a", none⟩, ⟨"b", none⟩, ⟨"a", none⟩]
                  [JSVal.num 1, JSVal.num 2, JSVal.num 3] "a")
    ∧ specLastOriginal [⟨"a", none⟩, ⟨"b", none⟩, ⟨"a", none⟩]
        [JSVal.num 1, JSVal.num 2, JSVal.num 3] "a" = some (JSVal.num 3) :=
  ⟨rfl,
   duplicate_keys_last_write_wins [⟨"a", none⟩, ⟨"b", none⟩, ⟨"a", none⟩]
     [JSVal.num 1, JSVal.num 2, JSVal.num 3] "a" rfl,
   rfl⟩

/-! ### C8: keyToArgMap -/

theorem foldl_const_if (returns : List ReturnMeta) (k : String)
    (args : List String) (x : Option (List String)) :
    returns.foldl (fun r rm => if rm.key = k then some args else r) x
      = if returns.any (fun rm => rm.key = k) then some args else x := by
  induction returns generalizing x with
  | nil => simp
  | cons rm rest ih =>
      simp only [List.foldl_cons, ih, List.any_cons]
      by_cases h1 : rm.key = k <;> by_cases h2 : rest.any (fun rm => rm.key = k) <;>
        simp [h1, h2]

theorem lookupA_buildKeyToArgMap_aux (calls : List RawCall)
    (init : List (String × List String)) (k : String) :
    lookupA (calls.foldl (fun acc c =>
        let args := c.call.tail
        if args.length > 0 then
          c.returns.foldl (fun acc2 rm => upsert acc2 rm.key args) acc
        else acc) init) k
      = calls.foldl (fun r c =>
          if c.call.tail.length > 0 ∧ c.returns.any (fun rm => rm.key = k) then
            some c.call.tail
          else r) (lookupA init k) := by
  induction calls generalizing init with
  | nil => rfl
  | cons c rest ih =>
      simp only [List.foldl_cons]
      rw [ih]
      congr 1
      show lookupA (if c.call.tail.length > 0 then
          c.returns.foldl (fun acc2 rm => upsert acc2 rm.key c.call.tail) init
        else init) k = _
      by_cases hlen : c.call.tail.length > 0
      · rw [if_pos hlen]
        rw [lookupA_foldl_upsert (fun rm : ReturnMeta => rm.key)
          (fun _ => c.call.tail) c.returns init k]
        rw [foldl_const_if c.returns k c.call.tail (lookupA init k)]
        by_cases hany : (c.returns.any fun rm => decide (rm.key = k)) = true
        · rw [if_pos hany, if_pos ⟨hlen, hany⟩]
        · rw [if_neg hany, if_neg (fun hcon => hany hcon.2)]
      · rw [if_neg hlen, if_neg (fun hcon => hlen hcon.1)]

theorem lookupA_buildKeyToArgMap (calls : List RawCall) (k : String) :
    lookupA (buildKeyToArgMap calls) k = specKeyToArg calls k := by
  unfold buildKeyToArgMap specKeyToArg
  exact lookupA_buildKeyToArgMap_aux calls [] k

/-- C8: `keyToArgMap` has an entry for key `k` iff some call has at
least one input argument and a return-field spec keyed `k` (so calls
without arguments contribute nothing even when they have return
fields), and each entry maps `k` to the argument list of the last call
in list order that has at least one argument and uses key `k`. -/
theorem keyToArgMap_last_call_with_args (calls : List RawCall) (k : String) :
    (lookupA (buildKeyToArgMap calls) k ≠ none
      ↔ ∃ c ∈ calls, c.call.tail ≠ [] ∧ ∃ rm ∈ c.returns, rm.key = k)
    ∧ (∀ l1 c l2, calls = l1 ++ c :: l2 →
        c.call.tail ≠ [] → (∃ rm ∈ c.returns, rm.key = k) →
        (∀ c' ∈ l2, ¬(c'.call.tail ≠ [] ∧ ∃ rm ∈ c'.returns, rm.key = k)) →
        lookupA (buildKeyToArgMap calls) k = some c.call.tail) := by
  have hp : ∀ c : RawCall,
      (c.call.tail.length > 0 ∧ (c.returns.any fun rm => decide (rm.key = k)) = true)
        ↔ (c.call.tail ≠ [] ∧ ∃ rm ∈ c.returns, rm.key = k) := by
    intro c
    constructor
    · rintro ⟨h1, h2⟩
      obtain ⟨rm, hrm, hkey⟩ := List.any_eq_true.mp h2
      exact ⟨List.length_pos.mp h1, rm, hrm, of_decide_eq_true hkey⟩
    · rintro ⟨h1, rm, hrm, hkey⟩
      exact ⟨List.length_pos.mpr h1,
        List.any_eq_true.mpr ⟨rm, hrm, decide_eq_true hkey⟩⟩
  constructor
  · rw [lookupA_buildKeyToArgMap]
    unfold specKeyToArg
    rw [Ne, lastMatchF_eq_none
      (fun c : RawCall => c.call.tail.length > 0
        ∧ c.returns.any (fun rm => rm.key = k))
      (fun c : RawCall => c.call.tail) calls none]
    constructor
    · intro h
      by_contra hno
      exact h ⟨rfl, fun c hc hpc => hno ⟨c, hc, (hp c).mp hpc⟩⟩
    · rintro ⟨c, hc, hq⟩ hcon
      exact hcon.2 c hc ((hp c).mpr hq)
  · intro l1 c l2 hsplit h1 h2 hlater
    subst hsplit
    rw [lookupA_buildKeyToArgMap]
    unfold specKeyToArg
    exact lastMatchF_append_last
      (fun c : RawCall => c.call.tail.length > 0
        ∧ c.returns.any (fun rm => rm.key = k))
      (fun c : RawCall => c.call.tail) l1 c l2 none
      ((hp c).mpr ⟨h1, h2⟩)
      (fun c' hc' hpc => hlater c' hc' ((hp c').mp hpc))

/-- Witness for C8 at a concrete input: two argument-bearing calls
write key `"a"` and a final argument-less call also uses `"a"`; the
entry for `"a"` is the argument list of the last argument-bearing call
using `"a"`. -/
theorem keyToArgMap_last_call_with_args_witness :
    lookupA (buildKeyToArgMap
      [{ call := ["f(uint256)(uint256)", "1"], target := none,
         returns := [⟨"a", none⟩] },
       { call := ["g(uint256)(uint256)", "2"], target := none,
         returns := [⟨"a", none⟩, ⟨"b", none⟩] },
       { call := ["h()(uint256)"], target := none,
         returns := [⟨"a", none⟩] }]) "a" = some ["2"] := by
  have h := (keyToArgMap_last_call_with_args
    [{ call := ["f(uint256)(uint256)", "1"], target := none,
       returns := [⟨"a", none⟩] },
     { call := ["g(uint256)(uint256)", "2"], target := none,
       returns := [⟨"a", none⟩, ⟨"b", none⟩] },
     { call := ["h()(uint256)"], target := none,
       returns := [⟨"a", none⟩] }] "a").2
  have hmain := h
    [{ call := ["f(uint256)(uint256)", "1"], target := none,
       returns := [⟨"a", none⟩] }]
    { call := ["g(uint256)(uint256)", "2"], target := none,
      returns := [⟨"a", none⟩, ⟨"b", none⟩] }
    [{ call := ["h()(uint256)"], target := none,
       returns := [⟨"a", none⟩] }]
    rfl (by simp) ⟨⟨"a", none⟩, by simp, rfl⟩
    (by
      intro c' hc'
      simp only [List.mem_singleton] at hc'
      subst hc'
      rintro ⟨hbad, _⟩
      exact hbad rfl)
  simpa using hmain

/-! ### C4: the canonical method string used for selectors -/

theorem string_mk_data (s : String) : String.mk s.data = s := rfl

theorem strip1_group (l : List Char) :
    strip1 (String.mk ('(' :: l ++ [')'])) = String.mk l := by
  unfold strip1
  congr 1
  show (('(' :: (l ++ [')'])).drop 1).dropLast = l
  simp

theorem parenScan_cons_open (rest : List Char) :
    parenScan ('(' :: rest) none = parenScan rest (some ['(']) := by
  rw [parenScan]
  simp

/-- C4: for every well-formed signature-mode call whose signature is
`name(argTypes)(returnTypes)` (the name containing no parenthesis
characters and the argument-type group containing no `')'`), the
canonical method string stored in the descriptor — the string later
hashed for the 4-byte selector — is exactly `name(argTypes)`,
independent of the return-type group. -/
theorem canonical_method_excludes_return_types
    (cfg : Config) (tgt : Option String) (returns : List ReturnMeta)
    (name a r : String) (argValues : List String)
    (hn1 : ∀ ch ∈ name.data, ch ≠ '(')
    (hn2 : ∀ ch ∈ name.data, ch ≠ ')')
    (ha : ∀ ch ∈ a.data, ch ≠ ')')
    (hlen : (argTypesOf a).length = argValues.length) :
    ∃ d, normalizeCall cfg
        { call := (name ++ "(" ++ a ++ ")(" ++ r ++ ")") :: argValues,
          target := tgt, returns := returns } = .ok d
      ∧ d.method = name ++ "(" ++ a ++ ")" := by
  have hdata : (name ++ "(" ++ a ++ ")(" ++ r ++ ")").data
      = name.data ++ '(' :: (a.data ++ ')' :: ('(' :: (r.data ++ [')']))) := by
    simp [String.data_append]
  have hpg : parenGroups (name ++ "(" ++ a ++ ")(" ++ r ++ ")").data
      = ('(' :: a.data ++ [')']) :: parenScan ('(' :: (r.data ++ [')'])) none := by
    rw [hdata]
    unfold parenGroups
    rw [parenScan_skip name.data _ hn1, parenScan_cons_open,
      parenScan_inside_no_close a.data _ ['('] ha]
    simp
  have hmatch : matchAllParens (name ++ "(" ++ a ++ ")(" ++ r ++ ")")
      = some ((('(' :: a.data ++ [')']) ::
          parenScan ('(' :: (r.data ++ [')'])) none).map String.mk) := by
    unfold matchAllParens
    rw [hpg]
    simp
  have hfirst : firstClosingParen (name ++ "(" ++ a ++ ")(" ++ r ++ ")")
      = some (name ++ "(" ++ a ++ ")") := by
    unfold firstClosingParen
    rw [hdata]
    have hxs : ∀ c ∈ name.data ++ '(' :: a.data, c ≠ ')' := by
      intro c hc
      rcases List.mem_append.mp hc with h | h
      · exact hn2 c h
      · rcases List.mem_cons.mp h with h1 | h2
        · subst h1; decide
        · exact ha c h2
    have hsplit := splitAtClose_append_no_close
      (name.data ++ '(' :: a.data) ('(' :: (r.data ++ [')'])) hxs
    have hform : name.data ++ '(' :: (a.data ++ ')' :: ('(' :: (r.data ++ [')'])))
        = (name.data ++ '(' :: a.data) ++ ')' :: ('(' :: (r.data ++ [')'])) := by
      simp
    rw [hform, hsplit]
    simp only [Option.map_some']
    congr 1
    apply String.ext
    simp [String.data_append]
  unfold normalizeCall
  simp only [hmatch, List.map_cons, List.get?_cons_zero, Option.getD_some,
    strip1_group, string_mk_data, hfirst]
  rw [if_pos hlen]
  exact ⟨_, rfl, rfl⟩

/-- Witness for C4 at a concrete input: `balanceOf(address)(uint256)`
normalizes to the canonical method string `balanceOf(address)`. -/
theorem canonical_method_excludes_return_types_witness :
    (argTypesOf "address").length = ["0xABC"].length
    ∧ ∃ d, normalizeCall ⟨"0xMULTI"⟩
        { call := ("balanceOf" ++ "(" ++ "address" ++ ")(" ++ "uint256" ++ ")") :: ["0xABC"],
          target := some "0xTOKEN", returns := [⟨"bal", none⟩] } = .ok d
      ∧ d.method = "balanceOf" ++ "(" ++ "address" ++ ")" :=
  ⟨by decide,
   canonical_method_excludes_return_types ⟨"0xMULTI"⟩ (some "0xTOKEN")
     [⟨"bal", none⟩] "balanceOf" "address" "uint256" ["0xABC"]
     (by decide) (by decide) (by decide) (by decide)⟩

/-! ### C9 and C2: normalization failures abort before the network call -/

theorem mapNormalize_append_error (cfg : Config) (pre : List RawCall)
    (c : RawCall) (post : List RawCall) (e : JsError)
    (hok : ∀ d ∈ pre, ∃ desc, normalizeCall cfg d = .ok desc)
    (hc : normalizeCall cfg c = .error e) :
    mapNormalize cfg (pre ++ c :: post) = .error e := by
  induction pre with
  | nil => simp [mapNormalize, hc]
  | cons d rest ih =>
      obtain ⟨desc, hd⟩ := hok d (by simp)
      have ih' := ih (fun d' hd' => hok d' (by simp [hd']))
      simp [mapNormalize, hd, ih']

theorem normalizeCall_no_parens (cfg : Config) (c : RawCall)
    (method : String) (argValues : List String)
    (hcall : c.call = method :: argValues)
    (hnp : parenGroups method.data = []) :
    normalizeCall cfg c = .error (.typeError nullMatchMsg) := by
  have hm : matchAllParens method = none := by
    unfold matchAllParens
    simp [hnp]
  simp only [normalizeCall, hcall, hm]

/-- C9: a signature-mode call whose signature has no parenthesized
group at all makes `aggregate` throw the raw runtime `TypeError` that
comes from calling `.map` on the `null` regex-match result — not the
documented `MalformedCallArguments` invariant error — and the network
call is never invoked. -/
theorem no_paren_signature_raw_type_error (env : Env) (cfg : Config)
    (cache : List (String × String)) (pre : List RawCall) (c : RawCall)
    (post : List RawCall) (method : String) (argValues : List String)
    (hok : ∀ d ∈ pre, ∃ desc, normalizeCall cfg d = .ok desc)
    (hcall : c.call = method :: argValues)
    (hnp : parenGroups method.data = []) :
    aggregate env cfg (pre ++ c :: post) cache
      = (.error (.typeError nullMatchMsg), cache, false) := by
  have herr := normalizeCall_no_parens cfg c method argValues hcall hnp
  have hmap := mapNormalize_append_error cfg pre c post _ hok herr
  simp only [aggregate, hmap]

/-- Witness for C9 at a concrete input: the signature `"noparens"`. -/
theorem no_paren_signature_raw_type_error_witness :
    aggregate sampleEnv ⟨"0xMULTI"⟩
      [{ call := ["noparens", "1"], target := none, returns := [⟨"a", none⟩] }] []
      = (.error (.typeError nullMatchMsg), [], false) :=
  no_paren_signature_raw_type_error sampleEnv ⟨"0xMULTI"⟩ [] [] _ []
    "noparens" ["1"] (by intro d hd; cases hd) rfl (by decide)

theorem normalizeCall_arg_mismatch (cfg : Config) (c : RawCall)
    (method : String) (argValues : List String) (g0 : String) (gs : List String)
    (hcall : c.call = method :: argValues)
    (hgroups : matchAllParens method = some (g0 :: gs))
    (hmism : (argTypesOf (strip1 g0)).length ≠ argValues.length) :
    normalizeCall cfg c
      = .error (.invariantViolation (malformedMsg (argTypesOf (strip1 g0)) argValues)) := by
  simp only [normalizeCall, hcall, hgroups, List.map_cons, List.get?_cons_zero,
    Option.getD_some]
  rw [if_neg hmism]

/-- C2: a call whose signature's resolved argument-type count differs
from the number of supplied argument values makes `aggregate` fail with
the `invariant` error whose message embeds both the type list and the
value list (via `JSON.stringify`), and the network call is never
invoked (the invocation flag stays `false`). -/
theorem malformed_call_arguments_before_network (env : Env) (cfg : Config)
    (cache : List (String × String)) (pre : List RawCall) (c : RawCall)
    (post : List RawCall) (method : String) (argValues : List String)
    (g0 : String) (gs : List String)
    (hok : ∀ d ∈ pre, ∃ desc, normalizeCall cfg d = .ok desc)
    (hcall : c.call = method :: argValues)
    (hgroups : matchAllParens method = some (g0 :: gs))
    (hmism : (argTypesOf (strip1 g0)).length ≠ argValues.length) :
    aggregate env cfg (pre ++ c :: post) cache
      = (.error (.invariantViolation (malformedMsg (argTypesOf (strip1 g0)) argValues)),
         cache, false) := by
  have herr := normalizeCall_arg_mismatch cfg c method argValues g0 gs
    hcall hgroups hmism
  have hmap := mapNormalize_append_error cfg pre c post _ hok herr
  simp only [aggregate, hmap]

/-- Witness for C2 at a concrete input: a signature declaring two
argument types with only one supplied value. -/
theorem malformed_call_arguments_before_network_witness :
    matchAllParens "f(address,uint256)(bool)"
      = some ["(address,uint256)", "(bool)"]
    ∧ (argTypesOf (strip1 "(address,uint256)")).length ≠ ["0x1"].length
    ∧ aggregate sampleEnv ⟨"0xMULTI"⟩
        [{ call := ["f(address,uint256)(bool)", "0x1"], target := none,
           returns := [⟨"a", none⟩] }] []
        = (.error (.invariantViolation
            (malformedMsg (argTypesOf (strip1 "(address,uint256)")) ["0x1"])),
           [], false) :=
  ⟨by decide, by decide,
   malformed_call_arguments_before_network sampleEnv ⟨"0xMULTI"⟩ [] [] _ []
     "f(address,uint256)(bool)" ["0x1"] "(address,uint256)" ["(bool)"]
     (by intro d hd; cases hd) rfl (by decide) (by decide)⟩

/-! ### C1: result-arity mismatch fails before any mapping -/

/-- The length of the flat sequence of decoded result values: the sum,
over the per-call result blobs, of the number of values the codec
decodes for that call's return types. -/
def flatDecodedLen (env : Env) (descs : List Descriptor) (blobs : List JSVal) : Nat :=
  ((blobs.zip descs).map
    (fun p => (env.decodeParameters p.2.returnTypes p.1).length)).sum

theorem flatDecodedLen_eq (env : Env) (descs : List Descriptor)
    (blobs : List JSVal)
    (hdec : ∀ ts b, (env.decodeParameters ts b).length = ts.length)
    (hlen : blobs.length = descs.length) :
    flatDecodedLen env descs blobs
      = ((descs.map (fun c => c.returnTypes)).flatten).length := by
  induction descs generalizing blobs with
  | nil =>
      have : blobs = [] := List.length_eq_zero.mp (by simpa using hlen)
      subst this
      simp [flatDecodedLen]
  | cons d rest ih =>
      cases blobs with
      | nil => simp at hlen
      | cons b bs =>
          simp only [List.length_cons, Nat.add_right_cancel_iff] at hlen
          have ihh := ih bs hlen
          unfold flatDecodedLen at ihh ⊢
          simp only [List.zip_cons_cons, List.map_cons, List.sum_cons,
            List.flatten_cons, List.length_append, hdec]
          simp only [hdec] at ihh
          omega

/-- C1: in signature mode, whenever the flat sequence of decoded
result values would differ in length from the total number of
return-field-spec entries (given the codec contract that decoding `n`
types yields `n` values, and one result blob per call), `aggregate`
fails with the `Missing data needed to parse results` invariant error:
no entry is written and no partial `AggregateResult` is returned. -/
theorem arity_mismatch_fails_before_mapping (env : Env) (cfg : Config)
    (cache : List (String × String)) (rawCalls : List RawCall)
    (descs : List Descriptor) (bn : JSVal) (blobs : List JSVal)
    (hnorm : mapNormalize cfg rawCalls = .ok descs)
    (hdec : ∀ ts b, (env.decodeParameters ts b).length = ts.length)
    (houter : env.decodeParameters ["uint256", "bytes[]"]
        (JSVal.str (env.ethCall (makeMulticallData env cache descs).1 cfg))
      = [bn, JSVal.arr blobs])
    (hblen : blobs.length = descs.length)
    (hmism : flatDecodedLen env descs blobs
        ≠ ((descs.map (fun c => c.returns)).flatten).length) :
    (aggregate env cfg rawCalls cache).1
      = .error (.invariantViolation missingDataMsg) := by
  have hcond : ¬ ((descs.map (fun c => c.returnTypes)).flatten).length
      = ((descs.map (fun c => c.returns)).flatten).length := by
    rw [← flatDecodedLen_eq env descs blobs hdec hblen]
    exact hmism
  have hpost : ∀ outer, aggregatePost env descs outer
      = .error (.invariantViolation missingDataMsg) := by
    intro outer
    unfold aggregatePost
    rw [if_neg hcond]
  simp only [aggregate, hnorm, hpost]

/-- A concrete environment for the C1 witness: the codec decodes one
placeholder value per declared type and decodes any outer envelope to a
block number plus exactly one result blob. -/
def sampleEnvC1 : Env :=
  { keccak256 := fun s => "0x" ++ s,
    encodeParameters := fun _ vs => "0xenc" ++ toString vs.length,
    decodeParameters := fun ts _ => ts.map (fun t =>
      if t = "bytes[]" then JSVal.arr [JSVal.str "0xb0"] else JSVal.num 42),
    strip0x := fun s => s.drop 2,
    ethCall := fun _ _ => "0xresponse" }

/-- Witness for C1 at a concrete input: one call declaring two return
types but only one return-field spec; `aggregate` returns the
`Missing data needed to parse results` invariant error. -/
theorem arity_mismatch_fails_before_mapping_witness :
    (aggregate sampleEnvC1 ⟨"0xMULTI"⟩
      [{ call := ["f()(uint256,uint256)"], target := some "0xT",
         returns := [⟨"a", none⟩] }] []).1
      = .error (.invariantViolation missingDataMsg) :=
  arity_mismatch_fails_before_mapping sampleEnvC1 ⟨"0xMULTI"⟩ []
    [{ call := ["f()(uint256,uint256)"], target := some "0xT",
       returns := [⟨"a", none⟩] }]
    [{ method := "f()", args := [], returnTypes := ["uint256", "uint256"],
       target := "0xT", returns := [⟨"a", none⟩] }]
    (JSVal.num 42) [JSVal.str "0xb0"]
    rfl
    (by
      intro ts b
      simp [sampleEnvC1])
    rfl rfl
    (by decide)

/-! ### C10: ABI-mode interface storage and lookup -/

theorem abiNormalizeCall_target (env : AbiEnv) (cfg : Config)
    (ifaces : List (String × String)) (c : AbiCall) (d : AbiDescriptor)
    (h : abiNormalizeCall env cfg ifaces c = .ok d) :
    d.target = match c.target with
      | none => cfg.multicallAddress
      | some t => if t = "" then cfg.multicallAddress else t := by
  unfold abiNormalizeCall at h
  rcases hcall : c.call with _ | ⟨m, args⟩
  · simp only [hcall] at h
    exact Except.noConfusion h
  · simp only [hcall] at h
    rcases hlk : lookupA ifaces (targetKey c.target) with _ | abi
    · simp only [hlk] at h
      exact Except.noConfusion h
    · simp only [hlk] at h
      rcases hg : env.getFunctionInputs abi m with _ | argTypes
      · simp only [hg] at h
        exact Except.noConfusion h
      · simp only [hg] at h
        by_cases hlen : argTypes.length = args.length
        · rw [if_pos hlen] at h
          have hd := Except.ok.inj h
          rw [← hd]
        · rw [if_neg hlen] at h
          simp at h

/-- C10: in ABI mode the contract interfaces are stored in a mapping
keyed by the *pre-default* target: (i) the stored interface under any
key is the ABI of the last call whose pre-default target stringifies to
that key (so calls sharing a target all resolve through the last such
call's ABI); (ii) a call that omits its target is normalized to the
defaulted multicall address, and (iii) when no call's pre-default
target key equals the multicall address, the decode step's lookup under
that defaulted address finds no interface and throws. -/
theorem abi_interfaces_keyed_by_predefault_target
    (calls : List AbiCall) (cfg : Config) :
    (∀ t, lookupA (interfacesByContractAddress calls) t = lastAbiFor calls t)
    ∧ (∀ l1 c l2, calls = l1 ++ c :: l2 →
        (∀ c' ∈ l2, targetKey c'.target ≠ targetKey c.target) →
        lookupA (interfacesByContractAddress calls) (targetKey c.target)
          = some c.abi)
    ∧ (∀ env c d, c.target = none →
        abiNormalizeCall env cfg (interfacesByContractAddress calls) c = .ok d →
        d.target = cfg.multicallAddress)
    ∧ ((∀ c ∈ calls, targetKey c.target ≠ cfg.multicallAddress) →
        ∀ env descs i d result, descs.get? i = some d →
          d.target = cfg.multicallAddress →
          abiDecodeStep env (interfacesByContractAddress calls) descs result i
            = .error (.typeError undefinedDecodeFnResultMsg)) := by
  have hfold : ∀ t, lookupA (interfacesByContractAddress calls) t
      = lastAbiFor calls t := by
    intro t
    unfold interfacesByContractAddress lastAbiFor
    rw [lookupA_foldl_upsert (fun c : AbiCall => targetKey c.target)
      (fun c : AbiCall => c.abi) calls [] t]
    rfl
  refine ⟨hfold, ?_, ?_, ?_⟩
  · intro l1 c l2 hsplit hlater
    subst hsplit
    rw [hfold]
    unfold lastAbiFor
    exact lastMatchF_append_last
      (fun c' : AbiCall => targetKey c'.target = targetKey c.target)
      (fun c' : AbiCall => c'.abi) l1 c l2 none rfl hlater
  · intro env c d hnone hok
    have := abiNormalizeCall_target env cfg (interfacesByContractAddress calls)
      c d hok
    rw [hnone] at this
    exact this
  · intro hno env descs i d result hget htgt
    have hlast : lastAbiFor calls cfg.multicallAddress = none := by
      unfold lastAbiFor
      exact (lastMatchF_eq_none
        (fun c : AbiCall => targetKey c.target = cfg.multicallAddress)
        (fun c : AbiCall => c.abi) calls none).mpr ⟨rfl, hno⟩
    have hlk : lookupA (interfacesByContractAddress calls) d.target = none := by
      rw [htgt, hfold, hlast]
    unfold abiDecodeStep
    rw [hget]
    simp only [hlk]

/-- A concrete ABI-mode environment for the C10 witness. -/
def sampleAbiEnv : AbiEnv :=
  { getFunctionInputs := fun _ _ => some [],
    decodeFunctionResult := fun _ _ _ => [JSVal.num 1],
    keccak256 := fun s => "0x" ++ s,
    encodeParameters := fun _ vs => "0xenc" ++ toString vs.length,
    strip0x := fun s => s.drop 2,
    ethCall := fun _ _ => "0xresponse",
    decodeAggregateReturnData := fun _ => [JSVal.str "0xr0"] }

/-- Witness for C10 at a concrete input: two calls share target
`"0xX"` (the second ABI wins), a third call omits its target, no call
targets the multicall address, and the decode step for the defaulted
descriptor throws. -/
theorem abi_interfaces_keyed_by_predefault_target_witness :
    lookupA (interfacesByContractAddress
        [{ abi := "A1", call := ["m"], target := some "0xX" },
         { abi := "A2", call := ["m"], target := some "0xX" },
         { abi := "A3", call := ["n"], target := none }]) "0xX" = some "A2"
    ∧ abiDecodeStep sampleAbiEnv
        (interfacesByContractAddress
          [{ abi := "A1", call := ["m"], target := some "0xX" },
           { abi := "A2", call := ["m"], target := some "0xX" },
           { abi := "A3", call := ["n"], target := none }])
        [{ method := "n()", args := [], target := "0xMULTI" }]
        (JSVal.str "0xr0") 0
        = .error (.typeError undefinedDecodeFnResultMsg) := by
  have h := abi_interfaces_keyed_by_predefault_target
    [{ abi := "A1", call := ["m"], target := some "0xX" },
     { abi := "A2", call := ["m"], target := some "0xX" },
     { abi := "A3", call := ["n"], target := none }] ⟨"0xMULTI"⟩
  constructor
  · exact h.2.1 [{ abi := "A1", call := ["m"], target := some "0xX" }]
      { abi := "A2", call := ["m"], target := some "0xX" }
      [{ abi := "A3", call := ["n"], target := none }] rfl (by decide)
  · exact h.2.2.2 (by decide) sampleAbiEnv
      [{ method := "n()", args := [], target := "0xMULTI" }] 0
      { method := "n()", args := [], target := "0xMULTI" }
      (JSVal.str "0xr0") rfl rfl
